import Mathlib

/-!
Verification of the JSON-path bridge plugin (src/src/main.rs) against its
natural-language specification.

The development shallowly embeds the data model and the three real
components of the program:

- the Canonicalizer `value_to_json_value` (host value to canonical JSON),
- the Materializer `convert_sjson_to_value` (JSON node back to host value),
- the Query Dispatcher `run` / `perform_json_path_query`.

Machine floats are embedded as their 64-bit IEEE-754 bit patterns
(a `Fin (2 ^ 64)`), with finiteness decided on the exponent field; the only
float operations the source performs are the finiteness check inside
`serde_json::Number::from_f64` and moving the stored payload around, so bit
patterns model them exactly.  Rust panics (the `unwrap` and `todo!` sites of
the source) are modelled as a dedicated `panicked` result; fallible code
returns the labeled-error sum `PRes`.
-/

namespace JsonPathBridge

/-- Source-position tag carried by every host value (nu_protocol Span, a
start/end byte offset pair).  The program never interprets it. -/
structure Span where
  start : Nat
  stop : Nat
deriving DecidableEq

/-- A value together with the span it came from (nu_protocol Spanned). -/
structure Spanned (α : Type) where
  item : α
  span : Span

/-- A 64-bit IEEE-754 double, embedded as its bit pattern. -/
abbrev F64 := Fin 18446744073709551616

/-- Finiteness of an IEEE-754 double: the 11 exponent bits are not all ones.
NaN and the two infinities have exponent field 2047; every other pattern is
a finite number. -/
def F64.isFinite (f : F64) : Bool :=
  decide (((f.val >>> 52) &&& 2047) ≠ 2047)

/-- The largest Nat representable as a 64-bit signed integer. -/
def i64Max : Nat := 9223372036854775807

/-- serde_json::Number.  The crate stores a JSON number as an unsigned
64-bit integer, a negative signed 64-bit integer, or a double, depending on
how the token was parsed (any fraction or exponent part yields the float
representation). -/
inductive Number where
  | posInt (n : Nat)
  | negInt (i : Int)
  | float (f : F64)
deriving DecidableEq

/-- Model of the From Int instance for serde_json::Number: negative values
become the NegInt representation, the rest the PosInt one. -/
def Number.ofInt (i : Int) : Number :=
  if i < 0 then .negInt i else .posInt i.toNat

/-- serde_json::Number::is_f64: true exactly for the float representation. -/
def Number.is_f64 : Number → Bool
  | .float _ => true
  | _ => false

/-- serde_json::Number::as_f64 at the call site of the source: under an
is_f64 guard it returns the stored double.  (The crate would also convert
the integer representations to floating point, but the program only calls
as_f64 when is_f64 holds, so the integer cases are never exercised and are
modelled as none.) -/
def Number.as_f64 : Number → Option F64
  | .float f => some f
  | _ => none

/-- serde_json::Number::as_i64: a PosInt fits iff it is at most i64Max, a
NegInt always fits, a float never converts. -/
def Number.as_i64 : Number → Option Int
  | .posInt n => if n ≤ i64Max then some (n : Int) else none
  | .negInt i => some i
  | .float _ => none

/-- serde_json::Number::from_f64: rejects non-finite doubles, stores every
finite one as the float representation. -/
def Number.from_f64 (f : F64) : Option Number :=
  if f.isFinite then some (.float f) else none

/-- serde_json::Value: the canonical JSON document tree. -/
inductive SerdeJsonValue where
  | null
  | bool (b : Bool)
  | number (n : Number)
  | str (s : String)
  | array (xs : List SerdeJsonValue)
  | object (kvs : List (String × SerdeJsonValue))

/-- nu_protocol::ast::PathMember: one member of a cell path, either a
column name or a row index (a usize, hence a Nat). -/
inductive PathMember where
  | string (val : String)
  | int (val : Nat)
deriving DecidableEq

/-- nu_protocol::Value, the host value model, restricted to the payload the
program inspects.  Ints are 64-bit signed in the host; the embedding keeps
them as Int and states range conditions where they matter.  The opaque
collaborator capabilities are embedded as data: a LazyRecord carries the
outcome of its collect call, a CustomValue carries the outcome of its
to_base_value call together with a (never consulted) direct-to-JSON
capability, matching the capabilities the spec lists for the value-model
collaborator.  The Error diagnostic payload is opaque and dropped. -/
inductive Value where
  | bool (val : Bool) (sp : Span)
  | int (val : Int) (sp : Span)
  | float (val : F64) (sp : Span)
  | filesize (val : Int) (sp : Span)
  | duration (val : Int) (sp : Span)
  | date (rendered : String) (sp : Span)
  | string (val : String) (sp : Span)
  | nothing (sp : Span)
  | cellPath (members : List PathMember) (sp : Span)
  | list (vals : List Value) (sp : Span)
  | record (val : List (String × Value)) (sp : Span)
  | binary (val : List Nat) (sp : Span)
  | error (sp : Span)
  | closure (sp : Span)
  | block (sp : Span)
  | range (sp : Span)
  | lazyRecord (collected : Option Value) (sp : Span)
  | customValue (toJson : Option SerdeJsonValue) (base : Option Value) (sp : Span)
  | glob (val : String) (noExpand : Bool) (sp : Span)

/-- Span accessor, source Value::span. -/
def Value.span : Value → Span
  | .bool _ sp => sp
  | .int _ sp => sp
  | .float _ sp => sp
  | .filesize _ sp => sp
  | .duration _ sp => sp
  | .date _ sp => sp
  | .string _ sp => sp
  | .nothing sp => sp
  | .cellPath _ sp => sp
  | .list _ sp => sp
  | .record _ sp => sp
  | .binary _ sp => sp
  | .error sp => sp
  | .closure sp => sp
  | .block sp => sp
  | .range sp => sp
  | .lazyRecord _ sp => sp
  | .customValue _ _ sp => sp
  | .glob _ _ sp => sp

/-- Rendering of Value::get_type used in the unsupported-input message.
Scalar type names are the exact nu_protocol strings; the composite and
opaque renderings (which display parameterized types in the host) are
abbreviated, and none of them is inspected by any theorem below except the
"bool" one the spec names. -/
def Value.get_type : Value → String
  | .bool _ _ => "bool"
  | .int _ _ => "int"
  | .float _ _ => "float"
  | .filesize _ _ => "filesize"
  | .duration _ _ => "duration"
  | .date _ _ => "date"
  | .string _ _ => "string"
  | .nothing _ => "nothing"
  | .cellPath _ _ => "cell-path"
  | .list _ _ => "list"
  | .record _ _ => "record"
  | .binary _ _ => "binary"
  | .error _ => "error"
  | .closure _ => "closure"
  | .block _ => "block"
  | .range _ => "range"
  | .lazyRecord _ _ => "lazy record"
  | .customValue _ _ _ => "custom"
  | .glob _ _ _ => "glob"

/-- Labeled errors, one constructor per construction site in the source.
nonFiniteNumber is the site labeled "Error converting value: ... to f64",
embeddedError the site labeled "Error found: ...", hostFailure the
ShellError surfaced by LazyRecord::collect or CustomValue::to_base_value,
invalidJson "Error parsing json", missingQuery "Error parsing json query
string" / "No json path query provided", invalidQuery "Error parsing json
query", unsupportedInput "Expected some input from pipeline". -/
inductive LabeledErr where
  | nonFiniteNumber (f : F64) (sp : Span)
  | embeddedError (sp : Span)
  | hostFailure (sp : Span)
  | invalidJson (msg : String) (sp : Span)
  | missingQuery (sp : Span)
  | invalidQuery (msg : String) (sp : Span)
  | unsupportedInput (ty : String) (sp : Span)
deriving DecidableEq

/-- Outcome of a fallible program fragment: a value, a returned labeled
error, or a Rust panic (an unwrap on an error, or a todo). -/
inductive PRes (α : Type) where
  | ok (val : α)
  | err (e : LabeledErr)
  | panicked

/-- Insertion into a serde_json::Map.  The map preserves insertion order
(IndexMap semantics): inserting an existing key replaces the value in
place, a fresh key is appended.  Modelled from the spec: the order
preservation is fixed by the preserve_order feature selection in the
manifest, which is not part of the provided sources; the spec states that
both conversion directions preserve key order. -/
def mapInsert (m : List (String × SerdeJsonValue)) (k : String)
    (v : SerdeJsonValue) : List (String × SerdeJsonValue) :=
  match m with
  | [] => [(k, v)]
  | (k1, v1) :: rest =>
      if k1 = k then (k1, v) :: rest else (k1, v1) :: mapInsert rest k v

mutual

/-- Embedding of value_to_json_value (src/src/main.rs lines 145-213).
Cases appear in source order.  The Record arm inserts each converted child
with unwrap, so a child failure is a panic, not a returned error; the Glob
arm is a todo and panics unconditionally. -/
def value_to_json_value : Value → PRes SerdeJsonValue
  | .bool val _ => .ok (.bool val)
  | .filesize val _ => .ok (.number (.ofInt val))
  | .duration val _ => .ok (.number (.ofInt val))
  | .date rendered _ => .ok (.str rendered)
  | .float val sp =>
      match Number.from_f64 val with
      | some n => .ok (.number n)
      | none => .err (.nonFiniteNumber val sp)
  | .int val _ => .ok (.number (.ofInt val))
  | .nothing _ => .ok .null
  | .string val _ => .ok (.str val)
  | .cellPath members _ =>
      .ok (.array (members.map fun x =>
        match x with
        | .string val => .str val
        | .int val => .number (.posInt val)))
  | .list vals _ =>
      match json_list vals with
      | .ok out => .ok (.array out)
      | .err e => .err e
      | .panicked => .panicked
  | .error sp => .err (.embeddedError sp)
  | .closure _ => .ok .null
  | .block _ => .ok .null
  | .range _ => .ok .null
  | .binary val _ => .ok (.array (val.map fun x => .number (.posInt x)))
  | .record val _ =>
      match record_fields [] val with
      | some m => .ok (.object m)
      | none => .panicked
  | .lazyRecord collected sp =>
      match collected with
      | some v => value_to_json_value v
      | none => .err (.hostFailure sp)
  | .customValue _ base sp =>
      match base with
      | some v => value_to_json_value v
      | none => .err (.hostFailure sp)
  | .glob _ _ _ => .panicked

/-- Embedding of json_list (src/src/main.rs lines 215-223): converts the
children in order, propagating the first failure. -/
def json_list : List Value → PRes (List SerdeJsonValue)
  | [] => .ok []
  | value :: rest =>
      match value_to_json_value value with
      | .ok j =>
          match json_list rest with
          | .ok out => .ok (j :: out)
          | .err e => .err e
          | .panicked => .panicked
      | .err e => .err e
      | .panicked => .panicked

/-- The Record arm of value_to_json_value: a fold of map insertions over
the record fields in order.  The source iterates with for_each and unwraps
each child conversion, so any child failure (error or panic) is a panic. -/
def record_fields (acc : List (String × SerdeJsonValue)) :
    List (String × Value) → Option (List (String × SerdeJsonValue))
  | [] => some acc
  | (k, v) :: rest =>
      match value_to_json_value v with
      | .ok j => record_fields (mapInsert acc k j) rest
      | .err _ => none
      | .panicked => none

end

mutual

/-- Embedding of convert_sjson_to_value (src/src/main.rs lines 115-143),
the Materializer.  Every produced node is stamped with the span argument.
The number arm mirrors the source: floats pass through as_f64, everything
else goes through as_i64 whose unwrap panics (modelled none) when a PosInt
exceeds the signed 64-bit maximum. -/
def convert_sjson_to_value : SerdeJsonValue → Span → Option Value
  | .array array, span =>
      match convert_sjson_list array span with
      | some v => some (.list v span)
      | none => none
  | .bool b, span => some (.bool b span)
  | .number f, span =>
      if f.is_f64 then
        (f.as_f64).map fun x => Value.float x span
      else
        (f.as_i64).map fun x => Value.int x span
  | .null, span => some (.nothing span)
  | .object k, span =>
      match convert_sjson_fields k span with
      | some rec1 => some (.record rec1 span)
      | none => none
  | .str s, span => some (.string s span)

/-- Elementwise materialization of a JSON array (the map/collect of the
array arm, also used on the query result sequence), with a child panic
propagating. -/
def convert_sjson_list : List SerdeJsonValue → Span → Option (List Value)
  | [], _ => some []
  | x :: rest, span =>
      match convert_sjson_to_value x span with
      | some v =>
          match convert_sjson_list rest span with
          | some vs => some (v :: vs)
          | none => none
      | none => none

/-- Fieldwise materialization of a JSON object: each entry is pushed onto
the record in original order. -/
def convert_sjson_fields : List (String × SerdeJsonValue) → Span →
    Option (List (String × Value))
  | [], _ => some []
  | (k, v) :: rest, span =>
      match convert_sjson_to_value v span with
      | some w =>
          match convert_sjson_fields rest span with
          | some ws => some ((k, w) :: ws)
          | none => none
      | none => none

end

mutual

/-- Replaces every position tag of a value by p, recursively.  This is the
re-stamping the round-trip property of the spec speaks about. -/
def Value.restamp (p : Span) : Value → Value
  | .bool val _ => .bool val p
  | .int val _ => .int val p
  | .float val _ => .float val p
  | .filesize val _ => .filesize val p
  | .duration val _ => .duration val p
  | .date rendered _ => .date rendered p
  | .string val _ => .string val p
  | .nothing _ => .nothing p
  | .cellPath members _ => .cellPath members p
  | .list vals _ => .list (Value.restampList p vals) p
  | .record val _ => .record (Value.restampFields p val) p
  | .binary val _ => .binary val p
  | .error _ => .error p
  | .closure _ => .closure p
  | .block _ => .block p
  | .range _ => .range p
  | .lazyRecord collected _ => .lazyRecord (Value.restampOpt p collected) p
  | .customValue toJson base _ => .customValue toJson (Value.restampOpt p base) p
  | .glob val noExpand _ => .glob val noExpand p

/-- Pointwise restamping of a list of values. -/
def Value.restampList (p : Span) : List Value → List Value
  | [] => []
  | v :: rest => Value.restamp p v :: Value.restampList p rest

/-- Pointwise restamping of record fields. -/
def Value.restampFields (p : Span) : List (String × Value) → List (String × Value)
  | [] => []
  | (k, v) :: rest => (k, Value.restamp p v) :: Value.restampFields p rest

/-- Restamping under an optional value. -/
def Value.restampOpt (p : Span) : Option Value → Option Value
  | none => none
  | some v => some (Value.restamp p v)

end

mutual

/-- Holds when every position tag in the value, at every depth, is exactly
p. -/
def allStamped (p : Span) : Value → Bool
  | .bool _ sp => decide (sp = p)
  | .int _ sp => decide (sp = p)
  | .float _ sp => decide (sp = p)
  | .filesize _ sp => decide (sp = p)
  | .duration _ sp => decide (sp = p)
  | .date _ sp => decide (sp = p)
  | .string _ sp => decide (sp = p)
  | .nothing sp => decide (sp = p)
  | .cellPath _ sp => decide (sp = p)
  | .list vals sp => decide (sp = p) && allStampedList p vals
  | .record val sp => decide (sp = p) && allStampedFields p val
  | .binary _ sp => decide (sp = p)
  | .error sp => decide (sp = p)
  | .closure sp => decide (sp = p)
  | .block sp => decide (sp = p)
  | .range sp => decide (sp = p)
  | .lazyRecord collected sp => decide (sp = p) && allStampedOpt p collected
  | .customValue _ base sp => decide (sp = p) && allStampedOpt p base
  | .glob _ _ sp => decide (sp = p)

/-- allStamped over a list of values. -/
def allStampedList (p : Span) : List Value → Bool
  | [] => true
  | v :: rest => allStamped p v && allStampedList p rest

/-- allStamped over record fields. -/
def allStampedFields (p : Span) : List (String × Value) → Bool
  | [] => true
  | (_, v) :: rest => allStamped p v && allStampedFields p rest

/-- allStamped under an optional value. -/
def allStampedOpt (p : Span) : Option Value → Bool
  | none => true
  | some v => allStamped p v

end

/-- Whether an Int fits a 64-bit signed integer.  Value ints are i64 in
the host, so this is an invariant of real host values. -/
def inI64 (i : Int) : Bool :=
  decide (-9223372036854775808 ≤ i) && decide (i ≤ 9223372036854775807)

/-- Key list without duplicates (the record-key uniqueness the host
guarantees by construction). -/
def nodupKeys : List String → Bool
  | [] => true
  | k :: rest => !(rest.contains k) && nodupKeys rest

mutual

/-- The round-trippable fragment of the claim: values built only from
Null, Bool, i64-ranged Int, finite Float, String, List and Record with
unique keys.  Binary and CellPath are excluded because their JSON images
are plain arrays that materialize back as Lists. -/
def roundTrippable : Value → Bool
  | .nothing _ => true
  | .bool _ _ => true
  | .int i _ => inI64 i
  | .float f _ => f.isFinite
  | .string _ _ => true
  | .list vals _ => roundTrippableList vals
  | .record val _ => nodupKeys (val.map Prod.fst) && roundTrippableFields val
  | _ => false

/-- roundTrippable over a list of values. -/
def roundTrippableList : List Value → Bool
  | [] => true
  | v :: rest => roundTrippable v && roundTrippableList rest

/-- roundTrippable over record fields. -/
def roundTrippableFields : List (String × Value) → Bool
  | [] => true
  | (_, v) :: rest => roundTrippable v && roundTrippableFields rest

end

mutual

/-- Holds when every integer-represented Number of the document fits the
64-bit signed range, i.e. when the Materializer never reaches the
panicking unwrap of as_i64. -/
def safeNums : SerdeJsonValue → Bool
  | .null => true
  | .bool _ => true
  | .number (.posInt n) => decide (n ≤ i64Max)
  | .number (.negInt _) => true
  | .number (.float _) => true
  | .str _ => true
  | .array xs => safeNumsList xs
  | .object kvs => safeNumsFields kvs

/-- safeNums over a list of documents. -/
def safeNumsList : List SerdeJsonValue → Bool
  | [] => true
  | x :: rest => safeNums x && safeNumsList rest

/-- safeNums over object fields. -/
def safeNumsFields : List (String × SerdeJsonValue) → Bool
  | [] => true
  | (_, v) :: rest => safeNums v && safeNumsFields rest

end

/-- Composition the round-trip property is about: canonicalize, then
materialize at position p.  A conversion failure or panic leaves nothing to
materialize. -/
def roundTrip (v : Value) (p : Span) : Option Value :=
  match value_to_json_value v with
  | .ok j => convert_sjson_to_value j p
  | .err _ => none
  | .panicked => none

/-- External collaborators of the Dispatcher: the serde_json parser and
serializer and the serde_json_path query engine (compile and evaluate),
consumed through the narrow interface the spec lists in its section 6. -/
structure Externals where
  Query : Type
  parse_json : String → Except String SerdeJsonValue
  render_json : SerdeJsonValue → String
  parse_path : String → Except String Query
  query_all : Query → SerdeJsonValue → List SerdeJsonValue

/-- The call data the host hands to run: the command head span and the
optional first positional argument (the query text), i.e. call.head and
call.opt(0). -/
structure EvaluatedCall where
  head : Span
  queryArg : Option (Spanned String)

/-- Embedding of perform_json_path_query (src/src/main.rs lines 79-113).
Note the order of the source: the input text is parsed as JSON first, the
missing-query check comes second, query compilation third; evaluation
results are materialized elementwise with the span argument (the span of
the piped input). -/
def perform_json_path_query (X : Externals) (input : String)
    (json_query : Option (Spanned String)) (span : Span) : PRes (List Value) :=
  match X.parse_json input with
  | .error e => .err (.invalidJson e span)
  | .ok serde_json =>
      match json_query with
      | none => .err (.missingQuery span)
      | some p =>
          match X.parse_path p.item with
          | .error e => .err (.invalidQuery e span)
          | .ok path =>
              match convert_sjson_list (X.query_all path serde_json) span with
              | some out => .ok out
              | none => .panicked

/-- Embedding of the run method (src/src/main.rs lines 46-77), the
Dispatcher.  String input is queried directly; Record input is first
canonicalized and rendered to text; anything else is rejected as
unsupported input at the head span.  The materialized results are wrapped
in a List stamped with the head span. -/
def run (X : Externals) (call : EvaluatedCall) (input : Value) : PRes Value :=
  let json_query := call.queryArg
  let span := call.head
  let input_span := input.span
  match input with
  | .string val _ =>
      match perform_json_path_query X val json_query input_span with
      | .ok results => .ok (.list results span)
      | .err e => .err e
      | .panicked => .panicked
  | .record rval rsp =>
      match value_to_json_value (.record rval rsp) with
      | .ok json_value =>
          match perform_json_path_query X (X.render_json json_value) json_query input_span with
          | .ok results => .ok (.list results span)
          | .err e => .err e
          | .panicked => .panicked
      | .err e => .err e
      | .panicked => .panicked
  | v => .err (.unsupportedInput v.get_type span)

/-! Concrete fixtures used by witnesses and counterexamples. -/

/-- A concrete span. -/
def sp0 : Span := ⟨0, 1⟩

/-- Another concrete span, distinct from sp0. -/
def sp1 : Span := ⟨2, 3⟩

/-- Bit pattern of the double 1.0 (a finite float). -/
def oneF64 : F64 := ⟨0x3FF0000000000000, by norm_num⟩

/-- Bit pattern of a quiet NaN. -/
def nanF64 : F64 := ⟨0x7FF8000000000000, by norm_num⟩

/-- Bit pattern of positive infinity. -/
def infF64 : F64 := ⟨0x7FF0000000000000, by norm_num⟩

/-- A concrete instantiation of the external collaborators: every text
parses to JSON null, queries compile to a trivial token and return no
nodes.  Only the pieces a given theorem exercises matter. -/
def X0 : Externals :=
  ⟨Unit, fun _ => .ok .null, fun _ => "", fun _ => .ok (), fun _ _ => []⟩

/-- A second concrete instantiation whose query evaluation returns one
string node, used to drive the dispatcher to a successful materialized
result. -/
def X1 : Externals :=
  ⟨Unit, fun _ => .ok .null, fun _ => "", fun _ => .ok (),
   fun _ _ => [.str "x", .array [.bool true]]⟩

/-- Shape test for the missing-query error. -/
def isMissingQueryErr : PRes Value → Bool
  | .err (.missingQuery _) => true
  | _ => false

/-! Claim theorems. -/

/-- C4 (code_bug evidence): a Record whose child conversion fails makes
value_to_json_value panic (the source unwraps the child result inside the
Record arm), while the List path next to it propagates the same child
failure as a returned error, exactly as the claim describes for both. -/
theorem c4_record_child_failure_panics :
    value_to_json_value (Value.record [("k", Value.error sp0)] sp1) = .panicked ∧
    value_to_json_value (Value.list [Value.error sp0] sp1) =
      .err (.embeddedError sp0) :=
  ⟨rfl, rfl⟩

/-- C7 counterexample: a Custom value carrying a direct-to-JSON capability
(producing JSON true) and a base value 5 converts to the JSON number 5 —
the direct capability the claim says is attempted first is never consulted,
so the claim fails at this input. -/
theorem c7_custom_counterexample :
    value_to_json_value
      (Value.customValue (some (.bool true)) (some (Value.int 5 sp0)) sp1) =
      .ok (.number (.posInt 5)) ∧
    (PRes.ok (SerdeJsonValue.number (.posInt 5)) ≠
      PRes.ok (SerdeJsonValue.bool true)) :=
  ⟨rfl, by simp⟩

/-- C7 amended: for every Custom value, convert requests the base-value
materialization and recurses on its result, ignoring any direct-to-JSON
capability; a base-value failure propagates as an error. -/
theorem c7_custom_amended (toJson : Option SerdeJsonValue) (b : Value) (sp : Span) :
    value_to_json_value (.customValue toJson (some b) sp) = value_to_json_value b ∧
    value_to_json_value (.customValue toJson none sp) = .err (.hostFailure sp) :=
  ⟨rfl, rfl⟩

/-- C8 (confirmed): converting a Float fails with the non-finite-number
error exactly when the double is not finite, and succeeds with the very
same double as a JSON number when it is finite — nothing is silently
substituted. -/
theorem c8_nonfinite_float (f : F64) (sp : Span) :
    (f.isFinite = false →
      value_to_json_value (.float f sp) = .err (.nonFiniteNumber f sp)) ∧
    (f.isFinite = true →
      value_to_json_value (.float f sp) = .ok (.number (.float f))) := by
  constructor <;> intro h <;> simp [value_to_json_value, Number.from_f64, h]

/-- C8 witness: NaN and positive infinity fail with the non-finite error,
the finite double 1.0 succeeds. -/
theorem c8_nonfinite_float_witness :
    value_to_json_value (.float nanF64 sp0) = .err (.nonFiniteNumber nanF64 sp0) ∧
    value_to_json_value (.float infF64 sp0) = .err (.nonFiniteNumber infF64 sp0) ∧
    value_to_json_value (.float oneF64 sp0) = .ok (.number (.float oneF64)) :=
  ⟨(c8_nonfinite_float nanF64 sp0).1 (by decide),
   (c8_nonfinite_float infF64 sp0).1 (by decide),
   (c8_nonfinite_float oneF64 sp0).2 (by decide)⟩

/-- C9 counterexample: the Glob variant, which the claim counts among the
variants converting successfully to JSON Null, makes the conversion panic
(the source arm is a todo). -/
theorem c9_glob_counterexample :
    value_to_json_value (Value.glob "*" false sp0) = .panicked ∧
    ((PRes.panicked : PRes SerdeJsonValue) ≠ PRes.ok SerdeJsonValue.null) :=
  ⟨rfl, by simp⟩

/-- C9 amended: Closure, Block and Range convert successfully to JSON
Null; the Glob variant is unimplemented and panics. -/
theorem c9_exec_variants_amended :
    (∀ sp, value_to_json_value (.closure sp) = .ok .null) ∧
    (∀ sp, value_to_json_value (.block sp) = .ok .null) ∧
    (∀ sp, value_to_json_value (.range sp) = .ok .null) ∧
    (∀ s ne sp, value_to_json_value (.glob s ne sp) = .panicked) :=
  ⟨fun _ => rfl, fun _ => rfl, fun _ => rfl, fun _ _ _ => rfl⟩

/-- C2 counterexample: a document holding the integer 18446744073709551615
(the u64 maximum, above the signed range) makes the Materializer panic —
it returns no TypedValue at all, refuting totality. -/
theorem c2_materializer_counterexample :
    convert_sjson_to_value
      (.array [.number (.posInt 18446744073709551615)]) sp0 = none ∧
    (convert_sjson_to_value
      (.array [.number (.posInt 18446744073709551615)]) sp0).isSome = false :=
  ⟨rfl, rfl⟩

/-- C3 counterexample: the JSON number 9223372036854775808 (one above the
signed 64-bit maximum) is integer-valued but not representable in the
signed range, so the claim requires a Float result; the Materializer
instead panics and produces nothing. -/
theorem c3_number_classification_counterexample :
    i64Max < 9223372036854775808 ∧
    convert_sjson_to_value (.number (.posInt 9223372036854775808)) sp0 = none :=
  ⟨by norm_num [i64Max], rfl⟩

/-- C3 amended: the Materializer classifies a JSON number by its stored
representation: a float-represented number materializes as that very Float
(even when integer-valued), an integer-represented number within the
signed 64-bit range materializes as Int, and an unsigned integer above
that range panics. -/
theorem c3_number_classification_amended :
    (∀ (f : F64) (sp : Span),
      convert_sjson_to_value (.number (.float f)) sp = some (.float f sp)) ∧
    (∀ (k : Nat) (sp : Span), k ≤ i64Max →
      convert_sjson_to_value (.number (.posInt k)) sp = some (.int (k : Int) sp)) ∧
    (∀ (k : Nat) (sp : Span), i64Max < k →
      convert_sjson_to_value (.number (.posInt k)) sp = none) ∧
    (∀ (i : Int) (sp : Span),
      convert_sjson_to_value (.number (.negInt i)) sp = some (.int i sp)) := by
  refine ⟨fun f sp => rfl, fun k sp h => ?_, fun k sp h => ?_, fun i sp => rfl⟩
  · simp [convert_sjson_to_value, Number.is_f64, Number.as_i64, h]
  · have h2 : ¬ (k ≤ i64Max) := Nat.not_le.mpr h
    simp [convert_sjson_to_value, Number.is_f64, Number.as_i64, h2]

/-- C3 witness: 5 materializes as Int 5, the out-of-range integer panics,
and the float-represented 1.0 materializes as Float 1.0. -/
theorem c3_number_classification_witness :
    convert_sjson_to_value (.number (.posInt 5)) sp0 = some (.int 5 sp0) ∧
    convert_sjson_to_value (.number (.posInt 9223372036854775808)) sp0 = none ∧
    convert_sjson_to_value (.number (.float oneF64)) sp0 = some (.float oneF64 sp0) :=
  ⟨c3_number_classification_amended.2.1 5 sp0 (by norm_num [i64Max]),
   c3_number_classification_amended.2.2.1 9223372036854775808 sp0 (by norm_num [i64Max]),
   c3_number_classification_amended.1 oneF64 sp0⟩

/-- C5 counterexample: with the query argument absent and a Bool piped in,
the call fails with the unsupported-input error naming "bool", not with
the missing-query error — the input value does matter. -/
theorem c5_missing_query_counterexample :
    run X0 ⟨sp0, none⟩ (Value.bool true sp1) =
      .err (.unsupportedInput "bool" sp0) ∧
    isMissingQueryErr (run X0 ⟨sp0, none⟩ (Value.bool true sp1)) = false :=
  ⟨rfl, rfl⟩

/-- C5 amended: an absent query argument fails with the missing-query
error (at the span of the piped input) provided the input reaches the
query check: a String whose text parses as JSON, or a Record that
canonicalizes and whose rendering parses as JSON.   Other input variants
fail earlier with unsupported-input, and a JSON parse failure fires first
as invalid-json. -/
theorem c5_missing_query_amended (X : Externals) (call : EvaluatedCall) :
    (∀ s sp j, call.queryArg = none → X.parse_json s = .ok j →
       run X call (.string s sp) = .err (.missingQuery sp)) ∧
    (∀ rval rsp jv j, call.queryArg = none →
       value_to_json_value (.record rval rsp) = .ok jv →
       X.parse_json (X.render_json jv) = .ok j →
       run X call (.record rval rsp) = .err (.missingQuery rsp)) := by
  constructor
  · intro s sp j hq hp
    simp [run, perform_json_path_query, Value.span, hq, hp]
  · intro rval rsp jv j hq hc hp
    simp [run, perform_json_path_query, Value.span, hq, hc, hp]

/-- C5 witness: a String input that parses as JSON, with the query
argument absent, yields the missing-query error. -/
theorem c5_missing_query_witness :
    run X0 ⟨sp0, none⟩ (Value.string "null" sp1) = .err (.missingQuery sp1) :=
  (c5_missing_query_amended X0 ⟨sp0, none⟩).1 "null" sp1 .null rfl rfl

/-! Helper lemmas about key order. -/

/-- Bridging between the Bool contains of nodupKeys and membership. -/
theorem contains_eq_false_iff (ks : List String) (k : String) :
    ks.contains k = false ↔ k ∉ ks := by
  induction ks with
  | nil => simp
  | cons a as ih =>
      simp [List.contains_cons, Bool.or_eq_false_iff, beq_eq_false_iff_ne,
        ih, not_or]

/-- Inserting a fresh key into an order-preserving map appends it. -/
theorem mapInsert_append (m : List (String × SerdeJsonValue)) (k : String)
    (v : SerdeJsonValue) (h : k ∉ m.map Prod.fst) :
    mapInsert m k v = m ++ [(k, v)] := by
  induction m with
  | nil => rfl
  | cons a rest ih =>
      obtain ⟨k1, v1⟩ := a
      simp only [List.map_cons, List.mem_cons, not_or] at h
      have hne : ¬ (k1 = k) := fun hh => h.1 hh.symm
      simp [mapInsert, hne, ih h.2]

/-- The record-to-object fold preserves key order: with pairwise-fresh
keys the final map is the accumulator followed by the record keys in
order. -/
theorem record_fields_keys :
    ∀ (kvs : List (String × Value)) (acc m : List (String × SerdeJsonValue)),
      record_fields acc kvs = some m →
      (∀ k ∈ kvs.map Prod.fst, k ∉ acc.map Prod.fst) →
      nodupKeys (kvs.map Prod.fst) = true →
      m.map Prod.fst = acc.map Prod.fst ++ kvs.map Prod.fst := by
  intro kvs
  induction kvs with
  | nil =>
      intro acc m h _ _
      simp only [record_fields, Option.some.injEq] at h
      subst h
      simp
  | cons a rest ih =>
      obtain ⟨k, v⟩ := a
      intro acc m h hdisj hnodup
      simp only [List.map_cons, nodupKeys, Bool.and_eq_true,
        Bool.not_eq_true'] at hnodup
      obtain ⟨hkmem, hnodup2⟩ := hnodup
      have hkfresh : k ∉ rest.map Prod.fst := (contains_eq_false_iff _ _).mp hkmem
      cases hc : value_to_json_value v with
      | ok j =>
          simp only [record_fields, hc] at h
          have hkacc : k ∉ acc.map Prod.fst := by
            refine hdisj k ?_
            simp
          rw [mapInsert_append acc k j hkacc] at h
          have hdisj2 : ∀ k2 ∈ rest.map Prod.fst,
              k2 ∉ (acc ++ [(k, j)]).map Prod.fst := by
            intro k2 hk2
            simp only [List.map_append, List.mem_append, not_or]
            refine ⟨hdisj k2 (by simp [hk2]), ?_⟩
            simp only [List.map_cons, List.map_nil, List.mem_singleton]
            intro hh
            exact hkfresh (hh ▸ hk2)
          have := ih (acc ++ [(k, j)]) m h hdisj2 hnodup2
          simp only [List.map_append, List.map_cons, List.map_nil] at this
          simp [this, List.append_assoc]
      | err e =>
          simp only [record_fields, hc] at h
          exact Option.noConfusion h
      | panicked =>
          simp only [record_fields, hc] at h
          exact Option.noConfusion h

/-- Object-to-record materialization keeps the field keys in original
order. -/
theorem convert_sjson_fields_keys :
    ∀ (flds : List (String × SerdeJsonValue)) (sp : Span)
      (kvs : List (String × Value)),
      convert_sjson_fields flds sp = some kvs →
      kvs.map Prod.fst = flds.map Prod.fst := by
  intro flds
  induction flds with
  | nil =>
      intro sp kvs h
      simp only [convert_sjson_fields, Option.some.injEq] at h
      subst h
      simp
  | cons a rest ih =>
      obtain ⟨k, v⟩ := a
      intro sp kvs h
      cases hc : convert_sjson_to_value v sp with
      | none =>
          simp only [convert_sjson_fields, hc] at h
          exact Option.noConfusion h
      | some w =>
          cases hr : convert_sjson_fields rest sp with
          | none =>
              simp only [convert_sjson_fields, hc, hr] at h
              exact Option.noConfusion h
          | some ws =>
              simp only [convert_sjson_fields, hc, hr, Option.some.injEq] at h
              subst h
              simp [ih sp ws hr]

/-- C10 (confirmed, key order modelled from the spec where the map order
depends on the manifest): Record-to-Object conversion emits the object
keys in the record insertion order whenever the record keys are unique,
and Object-to-Record materialization emits the record keys in the object
order unconditionally. -/
theorem c10_key_order :
    (∀ (kvs : List (String × Value)) (sp : Span)
       (m : List (String × SerdeJsonValue)),
       nodupKeys (kvs.map Prod.fst) = true →
       value_to_json_value (.record kvs sp) = .ok (.object m) →
       m.map Prod.fst = kvs.map Prod.fst) ∧
    (∀ (flds : List (String × SerdeJsonValue)) (sp : Span) (v : Value),
       convert_sjson_to_value (.object flds) sp = some v →
       ∃ kvs, v = .record kvs sp ∧ kvs.map Prod.fst = flds.map Prod.fst) := by
  constructor
  · intro kvs sp m hnodup h
    cases hr : record_fields [] kvs with
    | none => simp [value_to_json_value, hr] at h
    | some m1 =>
        simp only [value_to_json_value, hr, PRes.ok.injEq,
          SerdeJsonValue.object.injEq] at h
        subst h
        have := record_fields_keys kvs [] m1 hr (by simp) hnodup
        simpa using this
  · intro flds sp v h
    cases hf : convert_sjson_fields flds sp with
    | none => simp [convert_sjson_to_value, hf] at h
    | some ws =>
        simp only [convert_sjson_to_value, hf, Option.some.injEq] at h
        subst h
        exact ⟨ws, rfl, convert_sjson_fields_keys flds sp ws hf⟩

/-- C10 witness: a two-field record converts to an object with the same
keys in the same order, and a two-field object materializes to a record
with the same keys in the same order. -/
theorem c10_key_order_witness :
    ([("b", SerdeJsonValue.number (.posInt 1)),
      ("a", SerdeJsonValue.number (.posInt 2))].map Prod.fst =
      [("b", Value.int 1 sp0), ("a", Value.int 2 sp0)].map Prod.fst) ∧
    (∃ kvs, Value.record [("b", Value.bool true sp1), ("a", Value.nothing sp1)] sp1 =
        .record kvs sp1 ∧
      kvs.map Prod.fst =
        [("b", SerdeJsonValue.bool true), ("a", SerdeJsonValue.null)].map Prod.fst) :=
  ⟨c10_key_order.1 [("b", Value.int 1 sp0), ("a", Value.int 2 sp0)] sp0
      [("b", SerdeJsonValue.number (.posInt 1)),
       ("a", SerdeJsonValue.number (.posInt 2))] (by rfl) rfl,
   c10_key_order.2 [("b", SerdeJsonValue.bool true), ("a", SerdeJsonValue.null)]
      sp1 (Value.record [("b", Value.bool true sp1), ("a", Value.nothing sp1)] sp1) rfl⟩

/-! Totality of the Materializer on documents with safe numbers (C2). -/

/-- Strong induction core for C2: below any size bound, materialization
succeeds on every document, document list and field list whose
integer-represented numbers fit the signed 64-bit range. -/
theorem total_strong : ∀ n : Nat,
    (∀ j, sizeOf j < n → safeNums j = true → ∀ p : Span,
       (convert_sjson_to_value j p).isSome = true) ∧
    (∀ xs, sizeOf xs < n → safeNumsList xs = true → ∀ p : Span,
       (convert_sjson_list xs p).isSome = true) ∧
    (∀ fs, sizeOf fs < n → safeNumsFields fs = true → ∀ p : Span,
       (convert_sjson_fields fs p).isSome = true) := by
  intro n
  induction n with
  | zero =>
      exact ⟨fun j h => absurd h (Nat.not_lt_zero _),
        fun xs h => absurd h (Nat.not_lt_zero _),
        fun fs h => absurd h (Nat.not_lt_zero _)⟩
  | succ n ih =>
      obtain ⟨ih1, ih2, ih3⟩ := ih
      refine ⟨?_, ?_, ?_⟩
      · intro j hj hs p
        cases j with
        | null => simp [convert_sjson_to_value]
        | bool b => simp [convert_sjson_to_value]
        | str s => simp [convert_sjson_to_value]
        | number nn =>
            cases nn with
            | posInt k =>
                simp only [safeNums, decide_eq_true_eq] at hs
                simp [convert_sjson_to_value, Number.is_f64, Number.as_i64, hs]
            | negInt i =>
                simp [convert_sjson_to_value, Number.is_f64, Number.as_i64]
            | float f =>
                simp [convert_sjson_to_value, Number.is_f64, Number.as_f64]
        | array xs =>
            have hxs : sizeOf xs < n := by
              simp only [SerdeJsonValue.array.sizeOf_spec] at hj
              omega
            simp only [safeNums] at hs
            have := ih2 xs hxs hs p
            cases hl : convert_sjson_list xs p with
            | none => rw [hl] at this; simp at this
            | some ws => simp [convert_sjson_to_value, hl]
        | object kvs =>
            have hkvs : sizeOf kvs < n := by
              simp only [SerdeJsonValue.object.sizeOf_spec] at hj
              omega
            simp only [safeNums] at hs
            have := ih3 kvs hkvs hs p
            cases hl : convert_sjson_fields kvs p with
            | none => rw [hl] at this; simp at this
            | some ws => simp [convert_sjson_to_value, hl]
      · intro xs hxs hs p
        cases xs with
        | nil => simp [convert_sjson_list]
        | cons x rest =>
            simp only [safeNumsList, Bool.and_eq_true] at hs
            have h1 : sizeOf x < n := by
              simp only [List.cons.sizeOf_spec] at hxs
              omega
            have h2 : sizeOf rest < n := by
              simp only [List.cons.sizeOf_spec] at hxs
              omega
            have hx := ih1 x h1 hs.1 p
            have hr := ih2 rest h2 hs.2 p
            cases hcx : convert_sjson_to_value x p with
            | none => rw [hcx] at hx; simp at hx
            | some w =>
                cases hcr : convert_sjson_list rest p with
                | none => rw [hcr] at hr; simp at hr
                | some ws => simp [convert_sjson_list, hcx, hcr]
      · intro fs hfs hs p
        cases fs with
        | nil => simp [convert_sjson_fields]
        | cons a rest =>
            obtain ⟨k, v⟩ := a
            simp only [safeNumsFields, Bool.and_eq_true] at hs
            have h1 : sizeOf v < n := by
              simp only [List.cons.sizeOf_spec, Prod.mk.sizeOf_spec] at hfs
              omega
            have h2 : sizeOf rest < n := by
              simp only [List.cons.sizeOf_spec] at hfs
              omega
            have hx := ih1 v h1 hs.1 p
            have hr := ih3 rest h2 hs.2 p
            cases hcx : convert_sjson_to_value v p with
            | none => rw [hcx] at hx; simp at hx
            | some w =>
                cases hcr : convert_sjson_fields rest p with
                | none => rw [hcr] at hr; simp at hr
                | some ws => simp [convert_sjson_fields, hcx, hcr]

/-- C2 amended: the Materializer is pure (it is a function of its
arguments) and returns a TypedValue for every JSON document in which each
integer-represented Number fits the 64-bit signed range; an unsigned
integer above that range instead reaches a panicking unwrap. -/
theorem c2_materializer_total_amended (j : SerdeJsonValue) (p : Span)
    (h : safeNums j = true) : (convert_sjson_to_value j p).isSome = true :=
  (total_strong (sizeOf j + 1)).1 j (Nat.lt_succ_self _) h p

/-- C2 witness: a nested document with negative, positive and float
numbers materializes successfully. -/
theorem c2_materializer_total_witness :
    (convert_sjson_to_value
      (.object [("a", .number (.negInt (-1))),
                ("b", .array [.number (.posInt 7), .number (.float oneF64)])])
      sp0).isSome = true :=
  c2_materializer_total_amended
    (.object [("a", .number (.negInt (-1))),
              ("b", .array [.number (.posInt 7), .number (.float oneF64)])])
    sp0 rfl

/-! Stamping of materialized values (C6). -/

/-- Strong induction core for C6: every value the Materializer produces is
stamped, at every depth, with the span it was given. -/
theorem stamped_strong : ∀ n : Nat,
    (∀ j, sizeOf j < n → ∀ (p : Span) v, convert_sjson_to_value j p = some v →
       allStamped p v = true) ∧
    (∀ xs, sizeOf xs < n → ∀ (p : Span) vs, convert_sjson_list xs p = some vs →
       allStampedList p vs = true) ∧
    (∀ fs, sizeOf fs < n → ∀ (p : Span) ws, convert_sjson_fields fs p = some ws →
       allStampedFields p ws = true) := by
  intro n
  induction n with
  | zero =>
      exact ⟨fun j h => absurd h (Nat.not_lt_zero _),
        fun xs h => absurd h (Nat.not_lt_zero _),
        fun fs h => absurd h (Nat.not_lt_zero _)⟩
  | succ n ih =>
      obtain ⟨ih1, ih2, ih3⟩ := ih
      refine ⟨?_, ?_, ?_⟩
      · intro j hj p v h
        cases j with
        | null =>
            simp only [convert_sjson_to_value, Option.some.injEq] at h
            subst h
            simp [allStamped]
        | bool b =>
            simp only [convert_sjson_to_value, Option.some.injEq] at h
            subst h
            simp [allStamped]
        | str s =>
            simp only [convert_sjson_to_value, Option.some.injEq] at h
            subst h
            simp [allStamped]
        | number nn =>
            cases nn with
            | posInt k =>
                simp only [convert_sjson_to_value, Number.is_f64,
                  Number.as_i64, Bool.false_eq_true, if_false] at h
                split at h
                · simp only [Option.map_some', Option.some.injEq] at h
                  subst h
                  simp [allStamped]
                · simp at h
            | negInt i =>
                simp only [convert_sjson_to_value, Number.is_f64,
                  Number.as_i64, Bool.false_eq_true, if_false,
                  Option.map_some', Option.some.injEq] at h
                subst h
                simp [allStamped]
            | float f =>
                simp only [convert_sjson_to_value, Number.is_f64,
                  Number.as_f64, if_true, Option.map_some',
                  Option.some.injEq] at h
                subst h
                simp [allStamped]
        | array xs =>
            have hxs : sizeOf xs < n := by
              simp only [SerdeJsonValue.array.sizeOf_spec] at hj
              omega
            cases hl : convert_sjson_list xs p with
            | none => simp [convert_sjson_to_value, hl] at h
            | some ws =>
                simp only [convert_sjson_to_value, hl, Option.some.injEq] at h
                subst h
                simp [allStamped, ih2 xs hxs p ws hl]
        | object kvs =>
            have hkvs : sizeOf kvs < n := by
              simp only [SerdeJsonValue.object.sizeOf_spec] at hj
              omega
            cases hl : convert_sjson_fields kvs p with
            | none => simp [convert_sjson_to_value, hl] at h
            | some ws =>
                simp only [convert_sjson_to_value, hl, Option.some.injEq] at h
                subst h
                simp [allStamped, ih3 kvs hkvs p ws hl]
      · intro xs hxs p vs h
        cases xs with
        | nil =>
            simp only [convert_sjson_list, Option.some.injEq] at h
            subst h
            simp [allStampedList]
        | cons x rest =>
            have h1 : sizeOf x < n := by
              simp only [List.cons.sizeOf_spec] at hxs
              omega
            have h2 : sizeOf rest < n := by
              simp only [List.cons.sizeOf_spec] at hxs
              omega
            cases hcx : convert_sjson_to_value x p with
            | none =>
                simp only [convert_sjson_list, hcx] at h
                exact Option.noConfusion h
            | some w =>
                cases hcr : convert_sjson_list rest p with
                | none =>
                    simp only [convert_sjson_list, hcx, hcr] at h
                    exact Option.noConfusion h
                | some ws =>
                    simp only [convert_sjson_list, hcx, hcr,
                      Option.some.injEq] at h
                    subst h
                    simp [allStampedList, ih1 x h1 p w hcx,
                      ih2 rest h2 p ws hcr]
      · intro fs hfs p ws h
        cases fs with
        | nil =>
            simp only [convert_sjson_fields, Option.some.injEq] at h
            subst h
            simp [allStampedFields]
        | cons a rest =>
            obtain ⟨k, v⟩ := a
            have h1 : sizeOf v < n := by
              simp only [List.cons.sizeOf_spec, Prod.mk.sizeOf_spec] at hfs
              omega
            have h2 : sizeOf rest < n := by
              simp only [List.cons.sizeOf_spec] at hfs
              omega
            cases hcx : convert_sjson_to_value v p with
            | none =>
                simp only [convert_sjson_fields, hcx] at h
                exact Option.noConfusion h
            | some w =>
                cases hcr : convert_sjson_fields rest p with
                | none =>
                    simp only [convert_sjson_fields, hcx, hcr] at h
                    exact Option.noConfusion h
                | some wrest =>
                    simp only [convert_sjson_fields, hcx, hcr,
                      Option.some.injEq] at h
                    subst h
                    simp [allStampedFields, ih1 v h1 p w hcx,
                      ih3 rest h2 p wrest hcr]

/-- Elementwise reading of allStampedList. -/
theorem allStampedList_mem (p : Span) :
    ∀ (vs : List Value), allStampedList p vs = true →
      ∀ v ∈ vs, allStamped p v = true := by
  intro vs
  induction vs with
  | nil => simp
  | cons x rest ih =>
      intro h v hv
      simp only [allStampedList, Bool.and_eq_true] at h
      rcases List.mem_cons.mp hv with h1 | h1
      · exact h1 ▸ h.1
      · exact ih h.2 v h1

/-- A successful dispatch means the result list came from elementwise
materialization of some node sequence at the given span. -/
theorem perform_ok_materialized (X : Externals) (input : String)
    (jq : Option (Spanned String)) (span : Span) (results : List Value)
    (h : perform_json_path_query X input jq span = .ok results) :
    ∃ nodes, convert_sjson_list nodes span = some results := by
  unfold perform_json_path_query at h
  cases hpj : X.parse_json input with
  | error e => simp only [hpj] at h; exact PRes.noConfusion h
  | ok doc =>
      simp only [hpj] at h
      cases jq with
      | none => exact PRes.noConfusion h
      | some q =>
          cases hpp : X.parse_path q.item with
          | error e => simp only [hpp] at h; exact PRes.noConfusion h
          | ok path =>
              simp only [hpp] at h
              cases hcl : convert_sjson_list (X.query_all path doc) span with
              | none => simp only [hcl] at h; exact PRes.noConfusion h
              | some out =>
                  simp only [hcl] at h
                  cases h
                  exact ⟨X.query_all path doc, hcl⟩

/-- C6 (confirmed): whenever the Dispatcher succeeds, the returned value
is a List stamped with the head span whose every element — and every node
inside every element, at every depth — carries exactly the span of the
piped input, the single position fixed by the originating call before any
JSON is inspected.  No position is taken from the JSON text. -/
theorem c6_stamped_with_call_position (X : Externals) (call : EvaluatedCall)
    (input : Value) (out : Value) (h : run X call input = .ok out) :
    ∃ results, out = .list results call.head ∧
      ∀ v ∈ results, allStamped input.span v = true := by
  cases input with
  | string s sp =>
      simp only [run, Value.span] at h
      cases hp : perform_json_path_query X s call.queryArg sp with
      | ok results =>
          simp only [hp] at h
          cases h
          obtain ⟨nodes, hn⟩ := perform_ok_materialized X s call.queryArg sp results hp
          refine ⟨results, rfl, ?_⟩
          intro v hv
          have hall := (stamped_strong (sizeOf nodes + 1)).2.1 nodes
            (Nat.lt_succ_self _) sp results hn
          exact allStampedList_mem sp results hall v hv
      | err e => simp only [hp] at h; exact PRes.noConfusion h
      | panicked => simp only [hp] at h; exact PRes.noConfusion h
  | record rval rsp =>
      simp only [run, Value.span] at h
      cases hc : value_to_json_value (.record rval rsp) with
      | ok jv =>
          simp only [hc] at h
          cases hp : perform_json_path_query X (X.render_json jv) call.queryArg rsp with
          | ok results =>
              simp only [hp] at h
              cases h
              obtain ⟨nodes, hn⟩ := perform_ok_materialized X (X.render_json jv)
                call.queryArg rsp results hp
              refine ⟨results, rfl, ?_⟩
              intro v hv
              have hall := (stamped_strong (sizeOf nodes + 1)).2.1 nodes
                (Nat.lt_succ_self _) rsp results hn
              exact allStampedList_mem rsp results hall v hv
          | err e => simp only [hp] at h; exact PRes.noConfusion h
          | panicked => simp only [hp] at h; exact PRes.noConfusion h
      | err e => simp only [hc] at h; exact PRes.noConfusion h
      | panicked => simp only [hc] at h; exact PRes.noConfusion h
  | bool b sp => simp [run] at h
  | int i sp => simp [run] at h
  | float f sp => simp [run] at h
  | filesize i sp => simp [run] at h
  | duration i sp => simp [run] at h
  | date d sp => simp [run] at h
  | nothing sp => simp [run] at h
  | cellPath ms sp => simp [run] at h
  | list vs sp => simp [run] at h
  | binary bs sp => simp [run] at h
  | error sp => simp [run] at h
  | closure sp => simp [run] at h
  | block sp => simp [run] at h
  | range sp => simp [run] at h
  | lazyRecord c sp => simp [run] at h
  | customValue tj b sp => simp [run] at h
  | glob g ne sp => simp [run] at h

/-- C6 witness: a dispatcher call whose engine yields two nodes (a string
and a nested array) produces a list wrapped at the head span sp0 whose
elements are all stamped, at every depth, with the input span sp1. -/
theorem c6_stamped_witness :
    ∃ results,
      Value.list [Value.string "x" sp1, Value.list [Value.bool true sp1] sp1] sp0 =
        .list results sp0 ∧
      ∀ v ∈ results, allStamped sp1 v = true :=
  c6_stamped_with_call_position X1 ⟨sp0, some ⟨"q", sp0⟩⟩ (Value.string "{}" sp1)
    (Value.list [Value.string "x" sp1, Value.list [Value.bool true sp1] sp1] sp0) rfl

/-! Round trip (C1). -/

/-- Strong induction core for C1: on the round-trippable fragment,
canonicalization succeeds and materializing its output at p returns the
original value re-stamped with p; elementwise for lists, and for record
fields relative to an accumulator whose keys are fresh. -/
theorem roundtrip_strong : ∀ n : Nat,
    (∀ v, sizeOf v < n → roundTrippable v = true → ∀ p : Span,
       ∃ j, value_to_json_value v = .ok j ∧
            convert_sjson_to_value j p = some (Value.restamp p v)) ∧
    (∀ vs, sizeOf vs < n → roundTrippableList vs = true → ∀ p : Span,
       ∃ js, json_list vs = .ok js ∧
             convert_sjson_list js p = some (Value.restampList p vs)) ∧
    (∀ kvs, sizeOf kvs < n → roundTrippableFields kvs = true →
       nodupKeys (kvs.map Prod.fst) = true → ∀ (p : Span) acc,
       (∀ k ∈ kvs.map Prod.fst, k ∉ acc.map Prod.fst) →
       ∃ tail, record_fields acc kvs = some (acc ++ tail) ∧
               convert_sjson_fields tail p =
                 some (Value.restampFields p kvs)) := by
  intro n
  induction n with
  | zero =>
      exact ⟨fun v h => absurd h (Nat.not_lt_zero _),
        fun vs h => absurd h (Nat.not_lt_zero _),
        fun kvs h => absurd h (Nat.not_lt_zero _)⟩
  | succ n ih =>
      obtain ⟨ih1, ih2, ih3⟩ := ih
      refine ⟨?_, ?_, ?_⟩
      · intro v hsz hrt p
        cases v with
        | nothing sp =>
            exact ⟨.null, rfl, rfl⟩
        | bool b sp =>
            exact ⟨.bool b, rfl, rfl⟩
        | string str sp =>
            exact ⟨.str str, rfl, rfl⟩
        | int i sp =>
            simp only [roundTrippable, inI64, Bool.and_eq_true,
              decide_eq_true_eq] at hrt
            refine ⟨.number (.ofInt i), rfl, ?_⟩
            by_cases hneg : i < 0
            · simp [Number.ofInt, hneg, convert_sjson_to_value, Number.is_f64,
                Number.as_i64, Value.restamp]
            · have h0 : 0 ≤ i := le_of_not_lt hneg
              have hle : i.toNat ≤ i64Max := by
                simp only [i64Max]
                omega
              simp [Number.ofInt, hneg, convert_sjson_to_value, Number.is_f64,
                Number.as_i64, hle, Value.restamp, Int.toNat_of_nonneg h0]
        | float f sp =>
            simp only [roundTrippable] at hrt
            refine ⟨.number (.float f), ?_, ?_⟩
            · simp [value_to_json_value, Number.from_f64, hrt]
            · simp [convert_sjson_to_value, Number.is_f64, Number.as_f64,
                Value.restamp]
        | list vs sp =>
            simp only [roundTrippable] at hrt
            have hvs : sizeOf vs < n := by
              simp only [Value.list.sizeOf_spec] at hsz
              omega
            obtain ⟨js, hjs, hmat⟩ := ih2 vs hvs hrt p
            refine ⟨.array js, ?_, ?_⟩
            · simp [value_to_json_value, hjs]
            · simp [convert_sjson_to_value, hmat, Value.restamp]
        | record kvs sp =>
            simp only [roundTrippable, Bool.and_eq_true] at hrt
            have hkvs : sizeOf kvs < n := by
              simp only [Value.record.sizeOf_spec] at hsz
              omega
            obtain ⟨tail, hrf, hcf⟩ := ih3 kvs hkvs hrt.2 hrt.1 p [] (by simp)
            rw [List.nil_append] at hrf
            refine ⟨.object tail, ?_, ?_⟩
            · simp [value_to_json_value, hrf]
            · simp [convert_sjson_to_value, hcf, Value.restamp]
        | filesize i sp => simp [roundTrippable] at hrt
        | duration i sp => simp [roundTrippable] at hrt
        | date d sp => simp [roundTrippable] at hrt
        | cellPath ms sp => simp [roundTrippable] at hrt
        | binary bs sp => simp [roundTrippable] at hrt
        | error sp => simp [roundTrippable] at hrt
        | closure sp => simp [roundTrippable] at hrt
        | block sp => simp [roundTrippable] at hrt
        | range sp => simp [roundTrippable] at hrt
        | lazyRecord c sp => simp [roundTrippable] at hrt
        | customValue tj b sp => simp [roundTrippable] at hrt
        | glob g ne sp => simp [roundTrippable] at hrt
      · intro vs hsz hrt p
        cases vs with
        | nil => exact ⟨[], rfl, rfl⟩
        | cons x rest =>
            simp only [roundTrippableList, Bool.and_eq_true] at hrt
            have h1 : sizeOf x < n := by
              simp only [List.cons.sizeOf_spec] at hsz
              omega
            have h2 : sizeOf rest < n := by
              simp only [List.cons.sizeOf_spec] at hsz
              omega
            obtain ⟨j, hj, hm⟩ := ih1 x h1 hrt.1 p
            obtain ⟨js, hjs, hms⟩ := ih2 rest h2 hrt.2 p
            refine ⟨j :: js, ?_, ?_⟩
            · simp [json_list, hj, hjs]
            · simp [convert_sjson_list, hm, hms, Value.restampList]
      · intro kvs hsz hrt hnd p acc hdisj
        cases kvs with
        | nil => exact ⟨[], by simp [record_fields], rfl⟩
        | cons a rest =>
            obtain ⟨k, v⟩ := a
            simp only [roundTrippableFields, Bool.and_eq_true] at hrt
            simp only [List.map_cons, nodupKeys, Bool.and_eq_true,
              Bool.not_eq_true'] at hnd
            have hkfresh : k ∉ rest.map Prod.fst :=
              (contains_eq_false_iff _ _).mp hnd.1
            have h1 : sizeOf v < n := by
              simp only [List.cons.sizeOf_spec, Prod.mk.sizeOf_spec] at hsz
              omega
            have h2 : sizeOf rest < n := by
              simp only [List.cons.sizeOf_spec] at hsz
              omega
            obtain ⟨j, hj, hm⟩ := ih1 v h1 hrt.1 p
            have hkacc : k ∉ acc.map Prod.fst := hdisj k (by simp)
            have hdisj2 : ∀ k2 ∈ rest.map Prod.fst,
                k2 ∉ (acc ++ [(k, j)]).map Prod.fst := by
              intro k2 hk2
              simp only [List.map_append, List.mem_append, not_or,
                List.map_cons, List.map_nil, List.mem_singleton]
              exact ⟨hdisj k2 (by simp [hk2]), fun hh => hkfresh (hh ▸ hk2)⟩
            obtain ⟨tail, hrf, hcf⟩ :=
              ih3 rest h2 hrt.2 hnd.2 p (acc ++ [(k, j)]) hdisj2
            refine ⟨(k, j) :: tail, ?_, ?_⟩
            · simp only [record_fields, hj]
              rw [mapInsert_append acc k j hkacc, hrf]
              simp [List.append_assoc]
            · simp [convert_sjson_fields, hm, hcf, Value.restampFields]

/-- C1 amended: for every TypedValue built only from Null, Bool, Int,
finite Float, String, List and Record (with unique keys), materializing
the result of converting it at position p yields the value with every
position tag replaced by p.  Binary and Path are excluded: their JSON
images are plain arrays, so they materialize back as Lists, not as
Binary/Path values. -/
theorem c1_roundtrip_amended (v : Value) (p : Span)
    (h : roundTrippable v = true) :
    roundTrip v p = some (Value.restamp p v) := by
  obtain ⟨j, h1, h2⟩ :=
    (roundtrip_strong (sizeOf v + 1)).1 v (Nat.lt_succ_self _) h p
  simp [roundTrip, h1, h2]

/-- C1 witness: a record holding an int and a list of a string and a
float, stamped sp0 throughout, round trips to the same shape stamped sp1
throughout. -/
theorem c1_roundtrip_witness :
    roundTrip
      (Value.record [("a", Value.int 3 sp0),
        ("b", Value.list [Value.string "s" sp0, Value.float oneF64 sp0] sp0)] sp0)
      sp1 =
    some (Value.record [("a", Value.int 3 sp1),
      ("b", Value.list [Value.string "s" sp1, Value.float oneF64 sp1] sp1)] sp1) :=
  c1_roundtrip_amended
    (Value.record [("a", Value.int 3 sp0),
      ("b", Value.list [Value.string "s" sp0, Value.float oneF64 sp0] sp0)] sp0)
    sp1 (by decide)

/-- C1 counterexample: a Binary value and a Path value both round trip to
a List of their members, not to a re-stamped copy of themselves, so the
claim fails at these inputs (they are in the fragment the claim
enumerates). -/
theorem c1_roundtrip_counterexample :
    roundTrip (Value.binary [1] sp0) sp1 =
      some (Value.list [Value.int 1 sp1] sp1) ∧
    some (Value.list [Value.int 1 sp1] sp1) ≠
      some (Value.restamp sp1 (Value.binary [1] sp0)) ∧
    roundTrip (Value.cellPath [PathMember.int 1] sp0) sp1 =
      some (Value.list [Value.int 1 sp1] sp1) ∧
    some (Value.list [Value.int 1 sp1] sp1) ≠
      some (Value.restamp sp1 (Value.cellPath [PathMember.int 1] sp0)) := by
  refine ⟨rfl, ?_, rfl, ?_⟩ <;> simp [Value.restamp]

/-- C7 witness: the amended custom-value behavior at a concrete custom
value with a direct capability and an int base, and at one whose base
materialization fails. -/
theorem c7_custom_witness :
    value_to_json_value
      (.customValue (some (.bool true)) (some (Value.int 5 sp0)) sp1) =
      value_to_json_value (Value.int 5 sp0) ∧
    value_to_json_value (.customValue (some (.bool true)) none sp1) =
      .err (.hostFailure sp1) :=
  c7_custom_amended (some (.bool true)) (Value.int 5 sp0) sp1

/-- C9 witness: the amended executable-variant behavior at a concrete
closure and a concrete glob. -/
theorem c9_exec_variants_witness :
    value_to_json_value (.closure sp0) = .ok .null ∧
    value_to_json_value (.glob "g" true sp0) = .panicked :=
  ⟨c9_exec_variants_amended.1 sp0, c9_exec_variants_amended.2.2.2 "g" true sp0⟩

end JsonPathBridge
